import Mathlib

/-!
Verification of the CuttingLabs segmentation core against its specification.

The Python sources under `backend/segmenter/services/` are shallowly embedded:
pure numeric code is translated to functions over `ℚ`, `ℤ`, `ℕ` (real-valued
scoring uses `ℝ`), fallible code returns `Option`/`Except`, and the
provider/raster operations supplied by external libraries (Gemini SDK, numpy,
PIL, cv2) enter as explicit oracle parameters or as models of their documented
semantics.
-/

namespace Segmenter


/-- Round-half-to-even on rationals, modelling Python's builtin `round`
(used as `int(round(x))` in `pipeline.py` and `postprocess.py`). -/
def roundHalfEven (q : ℚ) : ℤ :=
  if q - ⌊q⌋ < 1/2 then ⌊q⌋
  else if 1/2 < q - ⌊q⌋ then ⌊q⌋ + 1
  else if ⌊q⌋ % 2 = 0 then ⌊q⌋ else ⌊q⌋ + 1

/-- Clamp of the low pixel coordinate into `[0, dim-1]`
(`pipeline.py` lines 88 and 90). -/
def clampLow (dim v : ℤ) : ℤ := max 0 (min (dim - 1) v)

/-- Clamp of the high pixel coordinate into `[1, dim]`
(`pipeline.py` lines 89 and 91). -/
def clampHigh (dim v : ℤ) : ℤ := max 1 (min dim v)

/-- Degenerate-box repair (`pipeline.py` lines 93-96): when the high
coordinate does not exceed the low one, force a one-pixel extent capped at
the image bound. -/
def repairHigh (dim lo hi : ℤ) : ℤ := if hi ≤ lo then min dim (lo + 1) else hi

/-- Model of `_box_to_px` (`pipeline.py` lines 79-98), identical to `_normalize_box`
(`postprocess.py` lines 45-65): scale a normalized `[y0,x0,y1,x1]` box by
`/1000 * dimension`, round to nearest, clamp, and repair degenerate boxes.
`none` models the `ValueError` raised when the input is not exactly four
numbers.  The returned tuple is `(x0_px, y0_px, x1_px, y1_px)`. -/
def boxToPx (box2d : List ℚ) (width height : ℤ) : Option (ℤ × ℤ × ℤ × ℤ) :=
  match box2d with
  | [y0, x0, y1, x1] =>
    some (clampLow width (roundHalfEven (x0 / 1000 * width)),
          clampLow height (roundHalfEven (y0 / 1000 * height)),
          repairHigh width (clampLow width (roundHalfEven (x0 / 1000 * width)))
            (clampHigh width (roundHalfEven (x1 / 1000 * width))),
          repairHigh height (clampLow height (roundHalfEven (y0 / 1000 * height)))
            (clampHigh height (roundHalfEven (y1 / 1000 * height))))
  | _ => none

/-- Model of `_map_box_to_full` (`pipeline.py` lines 279-302): reproject a normalized
box measured inside a crop back to normalized full-image coordinates.  The
input box is interpreted on the 0..1000 scale of the crop, scaled into crop
pixels, offset by the crop origin, clamped to `[0, dimension]`, and
re-normalized.  `none` models the `ValueError` raised while unpacking a box
that does not have exactly four numeric entries. -/
def mapBoxToFull (roiBox2d : List ℚ) (roiBounds : ℤ × ℤ × ℤ × ℤ)
    (fullSize : ℤ × ℤ) : Option (List ℚ) :=
  match roiBox2d with
  | [y0, x0, y1, x1] =>
    some [max 0 (min (fullSize.2 : ℚ)
            (roiBounds.2.1 + y0 / 1000 * (max 1 (roiBounds.2.2.2 - roiBounds.2.1) : ℤ)))
            / (fullSize.2 : ℚ) * 1000,
          max 0 (min (fullSize.1 : ℚ)
            (roiBounds.1 + x0 / 1000 * (max 1 (roiBounds.2.2.1 - roiBounds.1) : ℤ)))
            / (fullSize.1 : ℚ) * 1000,
          max 0 (min (fullSize.2 : ℚ)
            (roiBounds.2.1 + y1 / 1000 * (max 1 (roiBounds.2.2.2 - roiBounds.2.1) : ℤ)))
            / (fullSize.2 : ℚ) * 1000,
          max 0 (min (fullSize.1 : ℚ)
            (roiBounds.1 + x1 / 1000 * (max 1 (roiBounds.2.2.1 - roiBounds.1) : ℤ)))
            / (fullSize.1 : ℚ) * 1000]
  | _ => none

/-!  ## Candidate selection (`_select_candidate`, `pipeline.py` lines 219-246)

Scoring enriches each candidate with a score; the selection step then either
honours an in-range explicit `candidate_index` or takes
`max(range(len(scored)), key=score)`, which keeps the first index attaining
the maximum (Python's `max` replaces the current best only on a strictly
greater key).  The model works at the level of the score list; the pipeline
returns the candidate stored at the selected index verbatim. -/

/-- One step of Python's `max(..., key=...)`: the running best index is
replaced only when the new key is strictly greater. -/
def bestStep (scores : List ℚ) (best i : ℕ) : ℕ :=
  if scores.getD best 0 < scores.getD i 0 then i else best

/-- Model of `max(range(len(scored)), key=lambda i: scored[i].get('score', 0.0))`
(`pipeline.py` line 245). -/
def bestIndex (scores : List ℚ) : ℕ :=
  (List.range scores.length).foldl (bestStep scores) 0

/-- Index selected by `_select_candidate` (`pipeline.py` lines 242-246): an
in-range explicit `candidate_index` wins, otherwise the automatic best. -/
def selectIndex (scores : List ℚ) (candidateIndex : Option ℤ) : ℕ :=
  match candidateIndex with
  | some i => if 0 ≤ i ∧ i < scores.length then i.toNat else bestIndex scores
  | none => bestIndex scores

/-!  ## Round trip of `_box_to_px` and `_map_box_to_full` (C8)

`_map_box_to_full` interprets its input box on the 0..1000 normalized scale
of the crop, not in pixels, so feeding it the pixel box produced by
`_box_to_px` does not recover the original normalized box unless the image
is 1000×1000 (where pixel and normalized units coincide). -/

/-!  ## Mask cleanup hole filling (`_cleanup_binary_mask`, `postprocess.py` lines 10-42)

After the morphological close/open and the retention of the largest
foreground component (external cv2 raster operations), the code labels the
connected components of the inverted mask (`cv2.connectedComponentsWithStats`
on `1 - cleaned`, 8-connectivity) and fills every component whose bounding
box does not touch the raster border and whose area is at most
`max(1, int(height*width*hole_ratio))`, with `hole_ratio` clamped into
`[0.001, 0.05]` (default 0.01).  `cv2.connectedComponentsWithStats` is
modelled by its documented semantics: the labels of the inverted mask are
exactly the 8-connected components of the background cells, and a
component's bounding box touches the border
(`x == 0 or y == 0 or x + w >= width or y + h >= height` on the stats)
iff one of its cells lies on a border row or column. -/

/-- The 8-neighbourhood adjacency of raster cells. -/
def adj8 (p q : ℕ × ℕ) : Bool :=
  decide (p ≠ q) &&
  decide (p.1 = q.1 ∨ p.1 = q.1 + 1 ∨ p.1 + 1 = q.1) &&
  decide (p.2 = q.2 ∨ p.2 = q.2 + 1 ∨ p.2 + 1 = q.2)

/-- Background cells of the mask (the nonzero cells of `inv = 1 - cleaned`,
`postprocess.py` line 23). -/
def bgSet (H W : ℕ) (px : ℕ → ℕ → Bool) : Finset (ℕ × ℕ) :=
  (Finset.range H ×ˢ Finset.range W).filter (fun p => px p.1 p.2 = false)

/-- One step of connected-component growth inside `bg`. -/
def growOnce (bg s : Finset (ℕ × ℕ)) : Finset (ℕ × ℕ) :=
  s ∪ bg.filter (fun q => ∃ p ∈ s, adj8 p q = true)

/-- The 8-connected component of `p` inside `bg`, computed by saturated growth
(`bg.card` steps reach every connected cell). -/
def component (bg : Finset (ℕ × ℕ)) (p : ℕ × ℕ) : Finset (ℕ × ℕ) :=
  (growOnce bg)^[bg.card] {p}

/-- Border test of the cv2 bounding-box stats for a component: for cells
inside the raster, `x == 0 or y == 0 or x + w >= width or y + h >= height`
holds iff some cell lies on a border row or column. -/
def touchesBorder (H W : ℕ) (c : Finset (ℕ × ℕ)) : Bool :=
  decide (∃ p ∈ c, p.1 = 0 ∨ p.2 = 0 ∨ H ≤ p.1 + 1 ∨ W ≤ p.2 + 1)

/-- Model of `hole_ratio = max(0.001, min(0.05, hole_ratio))`
(`postprocess.py` line 31). -/
def holeRatioClamp (r : ℚ) : ℚ := max (1/1000) (min (1/20) r)

/-- Model of `hole_thresh = max(1, int(height * width * hole_ratio))`
(`postprocess.py` line 32; `int` truncates, which is the floor of this
nonnegative product). -/
def holeThresh (H W : ℕ) (r : ℚ) : ℤ :=
  max 1 ⌊(H : ℚ) * W * holeRatioClamp r⌋

/-- The hole-filling loop of `_cleanup_binary_mask` (`postprocess.py` lines
34-40), observed at cell `(i, j)`: a background cell becomes foreground iff
its component does not touch the border and its area is at most the
threshold; foreground cells stay foreground. -/
def holeFill (H W : ℕ) (px : ℕ → ℕ → Bool) (r : ℚ) (i j : ℕ) : Bool :=
  if px i j then true
  else if (i, j) ∈ bgSet H W px then
    !touchesBorder H W (component (bgSet H W px) (i, j)) &&
      decide (((component (bgSet H W px) (i, j)).card : ℤ) ≤ holeThresh H W r)
  else false

/-!  ## ROI second-pass refinement (`run_segmentation`, `pipeline.py` lines 468-488)

The orchestrator remembers the first-pass mask payload, label and box
(lines 468-470), then inside a `try` block generates ROI candidates,
selects one, assigns `roi_mask_payload` and `roi_label` from the selection
(lines 484-485) and finally reprojects the selected box (line 486); the
`except` handler only resets `roi_box_2d` to the first-pass box (line 488).
Candidate generation and selection are modelled by an `Option`-valued
scored-candidate list (provider/decode failures and the empty-candidate
`ValueError` both surface as failures before any assignment). -/

structure RoiCandidate where
  label : String
  box2d : List ℚ
  mask : String
  deriving DecidableEq

structure RefineOut where
  mask : String
  label : String
  box : List ℚ
  deriving DecidableEq

/-- Model of `_select_candidate` as invoked in the ROI pass (no explicit index):
pick the first maximal score; `none` models the `ValueError` that
`max(range(0))` raises on an empty candidate list.  Scoring itself never
raises (each candidate's failure degrades to score 0). -/
def selectFromScored (scored : List (RoiCandidate × ℚ)) : Option RoiCandidate :=
  (scored[bestIndex (scored.map Prod.snd)]?).map Prod.fst

/-- The refinement `try`/`except` data flow of `run_segmentation`
(lines 468-488). -/
def roiRefine (firstMask firstLabel : String) (firstBox : List ℚ)
    (roiCands : Option (List (RoiCandidate × ℚ)))
    (roiBounds : ℤ × ℤ × ℤ × ℤ) (fullSize : ℤ × ℤ) : RefineOut :=
  match roiCands with
  | none => ⟨firstMask, firstLabel, firstBox⟩
  | some scored =>
    match selectFromScored scored with
    | none => ⟨firstMask, firstLabel, firstBox⟩
    | some sel =>
      match mapBoxToFull sel.box2d roiBounds fullSize with
      | none => ⟨sel.mask, sel.label, firstBox⟩
      | some b => ⟨sel.mask, sel.label, b⟩

/-!  ## Provider fallback and retry (C5, C6)

`_generate_with_retry` (`gemini.py` lines 132-162) drives up to
`MAX_RETRIES = 2` attempts of the new SDK: a quota error on a non-final
attempt sleeps and retries, a quota error on the final attempt raises
`QuotaExceededError`; a non-quota error tries the legacy SDK, whose own
quota error raises `QuotaExceededError` and whose other errors propagate.
SDK calls are oracles: per-attempt outcomes carrying whether
`_is_quota_error` classifies them as quota and the extracted retry delay.
`generate_candidates` (`gemini.py` lines 165-185) parses the model text
(oracle); `_generate_candidates_with_retry` (`pipeline.py` lines 305-313)
re-runs the chain on a 1024-px image when parsing failed with
`Invalid JSON format`; `_generate_with_fallback` (`pipeline.py` lines
347-399) dispatches on the processing mode.  The boolean paired with each
result records whether the Gemini chain was consulted. -/

structure SdkFailure where
  isQuota : Bool
  retryAfter : ℚ
  msg : String
  deriving DecidableEq

structure GemCandidate where
  label : String
  box2d : List ℚ
  mask : String
  confidence : Option ℚ
  deriving DecidableEq

inductive PipeErr where
  | quotaExceeded (retryAfter : ℚ)
  | apiTimeout
  | invalidJson
  | badFormat
  | sdkError (f : SdkFailure)
  | exhausted
  | localFailed (inner : String)
  | bothFailed (geminiKind : String) (localMsg : String)
  deriving DecidableEq

/-- Error text surfaced to the caller for each failure. -/
def errMessage : PipeErr → String
  | .quotaExceeded _ => "API quota exceeded. Please try again shortly."
  | .apiTimeout => "API call timed out"
  | .invalidJson => "Invalid JSON format from model"
  | .badFormat => "Unexpected JSON format from model"
  | .sdkError f => f.msg
  | .exhausted => "Unknown error during generation"
  | .localFailed inner => "Local processing failed: " ++ inner
  | .bothFailed k m =>
    "Both Gemini and local processing failed. Gemini: " ++ k ++ ", Local: " ++ m

/-- The `for attempt in range(MAX_RETRIES)` loop of `_generate_with_retry`
(`gemini.py` lines 136-162), over the list of outcomes of the remaining
attempts: a quota failure with further attempts left sleeps and continues,
a quota failure on the last attempt raises `QuotaExceededError`, a
non-quota failure falls through to the legacy SDK.  Exhausting the range
without returning (possible only for zero retries) models the final
`RuntimeError`. -/
def retryLoop (legacy : Except SdkFailure String) :
    List (Except SdkFailure String) → Except PipeErr String
  | [] => .error .exhausted
  | out :: rest =>
    match out with
    | .ok text => .ok text
    | .error f =>
      if f.isQuota then
        match rest with
        | [] => .error (.quotaExceeded f.retryAfter)
        | _ :: _ => retryLoop legacy rest
      else
        match legacy with
        | .ok text => .ok text
        | .error lf =>
          if lf.isQuota then .error (.quotaExceeded lf.retryAfter)
          else .error (.sdkError lf)

/-- Model of `_generate_with_retry` with `MAX_RETRIES = 2`: the loop runs over the
outcomes of attempts 0 and 1. -/
def generateWithRetry (attempt : ℕ → Except SdkFailure String)
    (legacy : Except SdkFailure String) : Except PipeErr String :=
  retryLoop legacy [attempt 0, attempt 1]

/-- Model of `generate_candidates` (`gemini.py` lines 165-185) with the JSON
extraction and candidate filtering abstracted as a parse oracle. -/
def generateCandidates (attempt : ℕ → Except SdkFailure String)
    (legacy : Except SdkFailure String)
    (parse : String → Except PipeErr (List GemCandidate)) :
    Except PipeErr (List GemCandidate) :=
  match generateWithRetry attempt legacy with
  | .error e => .error e
  | .ok text => parse text

/-- Model of `_generate_candidates_with_retry` (`pipeline.py` lines 305-313): rerun
the chain on a smaller image when the first run failed with
`Invalid JSON format` and `max_edge > 1024`. -/
def genCandidatesWithSizeRetry
    (attemptFull attemptSmall : ℕ → Except SdkFailure String)
    (legacy : Except SdkFailure String)
    (parse : String → Except PipeErr (List GemCandidate))
    (maxEdge : ℕ) : Except PipeErr (List GemCandidate) :=
  match generateCandidates attemptFull legacy parse with
  | .error .invalidJson =>
    if maxEdge > 1024 then generateCandidates attemptSmall legacy parse
    else .error .invalidJson
  | r => r

inductive LocalErr where
  | inference (msg : String)
  | modelLoad (msg : String)
  | otherRaised (msg : String)
  deriving DecidableEq

structure LocalOk where
  cutout : String
  maskBytes : String
  label : String
  confidence : ℚ
  device : String
  inferenceMs : ℚ
  deriving DecidableEq

/-- Model of `_run_local_segmentation` (`pipeline.py` lines 316-344): a successful
RMBG run yields the synthetic candidate data; `InferenceError` and
`ModelLoadError` are re-raised as `ValueError("Local processing failed: ...")`;
any other exception propagates unchanged (represented by its message). -/
def runLocalSegmentation (res : Except LocalErr LocalOk) : Except String LocalOk :=
  match res with
  | .ok r => .ok r
  | .error (.inference m) => .error ("Local processing failed: " ++ m)
  | .error (.modelLoad m) => .error ("Local processing failed: " ++ m)
  | .error (.otherRaised m) => .error m

/-- Wrapping of a local result as a candidate (`pipeline.py` lines 363-372
and 388-397); the base64 transport of the mask bytes is elided. -/
def wrapLocal (r : LocalOk) : GemCandidate :=
  ⟨r.label, [0, 0, 1000, 1000], r.maskBytes, some r.confidence⟩

inductive ProcessingMode where
  | geminiMode
  | localMode
  | autoMode
  deriving DecidableEq

/-- The error classes the `auto` branch catches (`pipeline.py` line 383). -/
def isQuotaOrTimeout : PipeErr → Bool
  | .quotaExceeded _ => true
  | .apiTimeout => true
  | _ => false

/-- The `error_type` string of the `auto` branch (`pipeline.py` line 384). -/
def errKind : PipeErr → String
  | .apiTimeout => "timeout"
  | _ => "quota exceeded"

/-- Model of `_generate_with_fallback` (`pipeline.py` lines 347-399). -/
def generateWithFallback (mode : ProcessingMode)
    (attemptFull attemptSmall : ℕ → Except SdkFailure String)
    (legacy : Except SdkFailure String)
    (parse : String → Except PipeErr (List GemCandidate))
    (maxEdge : ℕ)
    (localRes : Except LocalErr LocalOk) :
    Except PipeErr (List GemCandidate × String) × Bool :=
  match mode with
  | .localMode =>
    (match runLocalSegmentation localRes with
     | .ok r => .ok ([wrapLocal r], "rmbg-local")
     | .error m => .error (.localFailed m), false)
  | .geminiMode =>
    (match genCandidatesWithSizeRetry attemptFull attemptSmall legacy parse maxEdge with
     | .ok cands => .ok (cands, "gemini")
     | .error e => .error e, true)
  | .autoMode =>
    (match genCandidatesWithSizeRetry attemptFull attemptSmall legacy parse maxEdge with
     | .ok cands => .ok (cands, "gemini")
     | .error e =>
       if isQuotaOrTimeout e then
         match runLocalSegmentation localRes with
         | .ok r => .ok ([wrapLocal r], "rmbg-local")
         | .error m => .error (.bothFailed (errKind e) m)
       else .error e, true)

/-!  ## Candidate scoring (`_score_candidate`, `pipeline.py` lines 101-216)

Real-valued model of the float scoring.  The raster-dependent raw values —
the mean fill fraction of the 128×128 resample of the decoded mask
(`_rectangularity`; `none` when the payload is absent or fails to decode)
and the mean gradient magnitude of the cropped grayscale (`_edge_density`)
— are oracles; the rescaling and clipping applied to them is the code's. -/

noncomputable section

/-- Model of `max(0.0, min(1.0, x))`. -/
def clip01 (x : ℝ) : ℝ := max 0 (min 1 x)

/-- Model of `_center_score` (`pipeline.py` lines 101-110). -/
def centerScore (x0 y0 x1 y1 : ℤ) (width height : ℕ) : ℝ :=
  if Real.sqrt (((width : ℝ) / 2)^2 + ((height : ℝ) / 2)^2) ≤ 0 then 0
  else clip01 (1 -
    Real.sqrt ((((x0 : ℝ) + (x1 : ℝ)) / 2 - (width : ℝ) / 2)^2 +
      (((y0 : ℝ) + (y1 : ℝ)) / 2 - (height : ℝ) / 2)^2) /
    Real.sqrt (((width : ℝ) / 2)^2 + ((height : ℝ) / 2)^2))

/-- Model of `_area_score` (`pipeline.py` lines 113-120). -/
def areaScore (ratioArg ratioMin ratioMax : ℝ) : ℝ :=
  if ratioArg ≤ 0 then 0
  else if ratioArg < ratioMin then clip01 (ratioArg / ratioMin)
  else if ratioMax < ratioArg then
    clip01 (1 - (ratioArg - ratioMax) / max (1/1000000) (1 - ratioMax))
  else 1

/-- Confidence defaulting and clipping (`pipeline.py` lines 183-190): the
provider value (first numeric among `confidence`, `score`, `probability`,
else 0.5) clipped into `[0, 1]`. -/
def confScore (conf : Option ℚ) : ℝ :=
  clip01 (match conf with | some c => (c : ℝ) | none => 0.5)

/-- Model of `_rectangularity` (`pipeline.py` lines 134-145): the mean fill fraction
of the resampled decoded mask (oracle) rescaled so that 35% fill maps to 0
and 100% to 1, clipped; 0.5 when the payload is absent or decoding fails. -/
def rectScore (fill : Option ℝ) : ℝ :=
  match fill with
  | none => 0.5
  | some f => clip01 ((f - 0.35) / 0.65)

/-- Model of `_edge_density` (`pipeline.py` lines 123-131): the mean gradient
magnitude (oracle) normalized by 255 and clipped. -/
def edgeScore (rawMeanGradient : ℝ) : ℝ := clip01 (rawMeanGradient / 255)

/-- Model of `margin = max(2, int(min(width, height) * 0.01))`
(`pipeline.py` line 153). -/
def borderMargin (width height : ℕ) : ℤ :=
  max 2 (min (width : ℤ) (height : ℤ) / 100)

/-- Number of image edges the box touches within the margin
(`pipeline.py` lines 154-162). -/
def borderTouchCount (x0 y0 x1 y1 : ℤ) (width height : ℕ) : ℕ :=
  (if x0 ≤ borderMargin width height then 1 else 0) +
  (if y0 ≤ borderMargin width height then 1 else 0) +
  (if (width : ℤ) - borderMargin width height ≤ x1 then 1 else 0) +
  (if (height : ℤ) - borderMargin width height ≤ y1 then 1 else 0)

/-- Model of `_border_touch_penalty` (`pipeline.py` lines 148-167). -/
def borderTouchPenalty (x0 y0 x1 y1 : ℤ) (width height : ℕ)
    (allowTouch : Bool) : ℝ :=
  if allowTouch then 0
  else if 2 ≤ borderTouchCount x0 y0 x1 y1 width height then 0.35
  else if borderTouchCount x0 y0 x1 y1 width height = 1 then 0.15
  else 0

/-- Model of `area_ratio = (box_w * box_h) / max(1.0, width * height)` with
`box_w = max(1, x1 - x0)`, `box_h = max(1, y1 - y0)`
(`pipeline.py` lines 180-182). -/
def areaRatioOf (x0 y0 x1 y1 : ℤ) (width height : ℕ) : ℝ :=
  ((max 1 (x1 - x0) * max 1 (y1 - y0) : ℤ) : ℝ) / max 1 ((width * height : ℕ) : ℝ)

/-- The focus-mode weighting (`pipeline.py` lines 198-205). -/
def baseScore (focusMode : String) (conf center area rect edge : ℝ) : ℝ :=
  if focusMode = "center" then 0.6*center + 0.2*area + 0.1*conf + 0.1*edge
  else if focusMode = "largest" then 0.6*area + 0.2*center + 0.1*conf + 0.1*rect
  else if focusMode = "detailed" then 0.6*edge + 0.2*center + 0.1*area + 0.1*conf
  else 0.3*conf + 0.25*center + 0.2*area + 0.15*rect + 0.1*edge

/-- Model of `_score_candidate` (`pipeline.py` lines 170-216): the final score is
`max(0, min(1, base - penalty))`; `none` models the `ValueError` from
`_box_to_px` on a malformed box (caught per-candidate by
`_select_candidate`). -/
def scoreCandidate (focusMode : String) (allowBorderTouch : Bool)
    (box2d : List ℚ) (width height : ℕ) (conf : Option ℚ)
    (rectFill : Option ℝ) (edgeRaw : ℝ) (areaMin areaMax : ℝ) : Option ℝ :=
  (boxToPx box2d width height).map fun b =>
    max 0 (min 1
      (baseScore focusMode (confScore conf)
        (centerScore b.1 b.2.1 b.2.2.1 b.2.2.2 width height)
        (areaScore (areaRatioOf b.1 b.2.1 b.2.2.1 b.2.2.2 width height)
          areaMin areaMax)
        (rectScore rectFill) (edgeScore edgeRaw) -
        borderTouchPenalty b.1 b.2.1 b.2.2.1 b.2.2.2 width height
          allowBorderTouch))

end

/-!  ## Alpha compositing (`apply_mask`, `postprocess.py` lines 68-140)

The alpha channel is computed at line 105 as
`np.where(cleaned > 0, np.maximum(mask_np, threshold), 0)` from the
smoothed-mask intensities and the threshold clamped into `[0, 255]`
(line 102); with `feather = 0` the adaptive Gaussian blur of lines 108-113
is skipped.  The smoothed mask raster and the cleaned binary raster are
oracles (products of the PIL/cv2 stages); the blur is an oracle raster
transform applied only when `feather > 0`.  The cropped cutout's alpha
(line 130) is a sub-rectangle of this same channel. -/

/-- Model of `threshold = int(max(0, min(255, threshold)))`
(`postprocess.py` line 102). -/
def clampThreshold (t : ℤ) : ℤ := max 0 (min 255 t)

/-- The alpha value of one cell
(`np.where(cleaned > 0, np.maximum(mask_np, threshold), 0)`,
`postprocess.py` line 105). -/
def alphaStage (cleaned : ℕ → ℕ → Bool) (maskNp : ℕ → ℕ → ℕ) (t : ℤ)
    (i j : ℕ) : ℤ :=
  if cleaned i j then max (maskNp i j : ℤ) (clampThreshold t) else 0

/-- The alpha channel produced by `apply_mask`
(`postprocess.py` lines 102-113): the stage value, blurred only when
`feather > 0`. -/
def applyMaskAlpha (feather : ℤ) (blur : (ℕ → ℕ → ℤ) → (ℕ → ℕ → ℤ))
    (cleaned : ℕ → ℕ → Bool) (maskNp : ℕ → ℕ → ℕ) (t : ℤ) : ℕ → ℕ → ℤ :=
  if feather > 0 then blur (alphaStage cleaned maskNp t)
  else alphaStage cleaned maskNp t

/-!  ## Base64 decoding (`decode_base64_bytes`, `utils.py` lines 51-63)

The decoder strips the string, drops a `data:...,` scheme prefix (split at
the first comma), removes all whitespace, pads with `=` to a multiple of
four, and calls `base64.b64decode(..., validate=False)`.  Byte strings are
`List (Fin 256)`; the reference encoder of the round-trip claim is the
standard base64 encoding; `b64decode` is modelled by its documented
semantics on alphabet characters with correct padding (the only inputs the
round trip produces). -/

/-- Python `\s` on the ASCII range (also the characters `str.strip`
removes). -/
def isWsChar (c : Char) : Bool :=
  c = ' ' || c = '\t' || c = '\n' || c = '\r' || c = '\x0b' || c = '\x0c'

/-- Trailing-whitespace strip (the right half of `str.strip`). -/
def dropTrailWs (s : List Char) : List Char :=
  (s.reverse.dropWhile isWsChar).reverse

/-- Model of `data.strip()`. -/
def stripWs (s : List Char) : List Char :=
  dropTrailWs (s.dropWhile isWsChar)

/-- Model of `re.sub(r'\s+', '', cleaned)`. -/
def removeWs (s : List Char) : List Char := s.filter (fun c => !isWsChar c)

/-- Model of `cleaned.split(',', 1)[-1]`: everything after the first comma, or the
whole string when there is none. -/
def afterFirstComma (s : List Char) : List Char :=
  if s.contains ',' then (s.dropWhile (fun c => !(c = ','))).drop 1 else s

/-- Model of `if cleaned.startswith('data:'): cleaned = cleaned.split(',', 1)[-1]`
(`utils.py` lines 55-56). -/
def dropDataUrl (s : List Char) : List Char :=
  if ("data:".toList).isPrefixOf s then afterFirstComma s else s

/-- The standard base64 alphabet. -/
def b64Alphabet : List Char :=
  "ABCDEFGHIJKLMNOPQRSTUVWXYZabcdefghijklmnopqrstuvwxyz0123456789+/".toList

/-- Character of one sextet. -/
def b64Char (n : ℕ) : Char := b64Alphabet.getD n 'A'

/-- Index of an alphabet character. -/
def b64Index (c : Char) : Option ℕ :=
  (List.range 64).find? (fun n => b64Char n = c)

/-- Standard base64 encoding with `=` padding (the reference encoder of
the round-trip claim). -/
def b64Encode : List (Fin 256) → List Char
  | [] => []
  | [x] => [b64Char (x.val / 4), b64Char (x.val % 4 * 16), '=', '=']
  | [x, y] => [b64Char (x.val / 4), b64Char (x.val % 4 * 16 + y.val / 16),
      b64Char (y.val % 16 * 4), '=']
  | x :: y :: z :: rest =>
      b64Char (x.val / 4) :: b64Char (x.val % 4 * 16 + y.val / 16) ::
      b64Char (y.val % 16 * 4 + z.val / 64) :: b64Char (z.val % 64) ::
      b64Encode rest

/-- The same encoding with the trailing `=` padding removed. -/
def b64EncodeRaw : List (Fin 256) → List Char
  | [] => []
  | [x] => [b64Char (x.val / 4), b64Char (x.val % 4 * 16)]
  | [x, y] => [b64Char (x.val / 4), b64Char (x.val % 4 * 16 + y.val / 16),
      b64Char (y.val % 16 * 4)]
  | x :: y :: z :: rest =>
      b64Char (x.val / 4) :: b64Char (x.val % 4 * 16 + y.val / 16) ::
      b64Char (y.val % 16 * 4 + z.val / 64) :: b64Char (z.val % 64) ::
      b64EncodeRaw rest

/-- Model of `base64.b64decode(..., validate=False)` on strings of alphabet
characters with correct `=` padding: each four sextets yield three bytes,
one or two `=` at the end drop the last one or two bytes. -/
def b64DecodeGroups : List Char → Option (List ℕ)
  | [] => some []
  | a :: b :: c :: d :: rest =>
    match b64Index a, b64Index b with
    | some va, some vb =>
      if c = '=' then
        if d = '=' ∧ rest = [] then some [va * 4 + vb / 16] else none
      else
        match b64Index c with
        | some vc =>
          if d = '=' then
            if rest = [] then some [va * 4 + vb / 16, vb % 16 * 16 + vc / 4]
            else none
          else
            match b64Index d with
            | some vd =>
              (b64DecodeGroups rest).map
                (fun t => (va * 4 + vb / 16) :: (vb % 16 * 16 + vc / 4) ::
                  (vc % 4 * 64 + vd) :: t)
            | none => none
        | none => none
    | _, _ => none
  | _ => none

/-- Padding to a multiple of four (`utils.py` lines 60-62). -/
def padTo4 (s : List Char) : List Char :=
  if s.length % 4 = 0 then s else s ++ List.replicate (4 - s.length % 4) '='

/-- Model of `decode_base64_bytes` (`utils.py` lines 51-63): strip, drop a
`data:` prefix, remove whitespace, re-pad, decode; `none` models the raised
`ValueError`s and `binascii` decode errors. -/
def decodeBase64Bytes (input : List Char) : Option (List ℕ) :=
  if removeWs (dropDataUrl (stripWs input)) = [] then none
  else b64DecodeGroups (padTo4 (removeWs (dropDataUrl (stripWs input))))

/-- Model of `t` equals `s` with extra whitespace characters inserted. -/
inductive WsInterleave : List Char → List Char → Prop
  | nil : WsInterleave [] []
  | keep (c : Char) {s t : List Char} : WsInterleave s t →
      WsInterleave (c :: s) (c :: t)
  | ws (c : Char) {s t : List Char} : isWsChar c = true → WsInterleave s t →
      WsInterleave s (c :: t)

example : boxToPx [0, 0, 1000, 1000] 100 100 = some (0, 0, 100, 100) := by
  norm_num [boxToPx, roundHalfEven, clampLow, clampHigh, repairHigh]

example : boxToPx [500, 500, 1000, 1000] 100 100 = some (50, 50, 100, 100) := by
  norm_num [boxToPx, roundHalfEven, clampLow, clampHigh, repairHigh]

example : boxToPx [500, 500] 100 100 = none := rfl

example : mapBoxToFull [50, 50, 100, 100] (0, 0, 100, 100) (100, 100) =
    some [50, 50, 100, 100] := by
  norm_num [mapBoxToFull]

/-- The rounded value stays within a half unit of its argument. -/
theorem roundHalfEven_le (q : ℚ) :
    q - 1/2 ≤ (roundHalfEven q : ℚ) ∧ (roundHalfEven q : ℚ) ≤ q + 1/2 := by
  have h1 : ((⌊q⌋ : ℤ) : ℚ) ≤ q := Int.floor_le q
  have h2 : q < (⌊q⌋ : ℚ) + 1 := Int.lt_floor_add_one q
  unfold roundHalfEven
  split_ifs <;> constructor <;> push_cast <;> linarith

/-- Core bounds of `_box_to_px`: pixel coordinates land in the documented
ranges and the box is never degenerate. -/
theorem boxToPx_bounds (box2d : List ℚ) (w h : ℤ)
    (hlen : box2d.length = 4) (hw : 1 ≤ w) (hh : 1 ≤ h) :
    ∃ x0 y0 x1 y1, boxToPx box2d w h = some (x0, y0, x1, y1) ∧
      0 ≤ x0 ∧ x0 ≤ w - 1 ∧ 1 ≤ x1 ∧ x1 ≤ w ∧
      0 ≤ y0 ∧ y0 ≤ h - 1 ∧ 1 ≤ y1 ∧ y1 ≤ h ∧
      x0 < x1 ∧ y0 < y1 := by
  match box2d, hlen with
  | [y0, x0, y1, x1], _ =>
    refine ⟨_, _, _, _, rfl, ?_⟩
    unfold clampLow clampHigh repairHigh
    split_ifs <;> omega

/-- C1: the normalized-box-to-pixels conversion of `_box_to_px` /
`_normalize_box` maps every four-entry numeric box, for every image with
`width ≥ 1` and `height ≥ 1`, to integer coordinates with
`x0_px ∈ [0, width-1]`, `y0_px ∈ [0, height-1]`, `x1_px ∈ [1, width]`,
`y1_px ∈ [1, height]`, and always `x1_px > x0_px` and `y1_px > y0_px`;
each coordinate is scaled by `/1000 * dimension`, rounded to the nearest
integer and clamped, and degenerate boxes are repaired by one pixel toward
the image bound (the `repairHigh` step of the definition). -/
theorem boxToPx_in_range_nondegenerate (box2d : List ℚ) (w h : ℤ)
    (hlen : box2d.length = 4) (hw : 1 ≤ w) (hh : 1 ≤ h) :
    ∃ x0 y0 x1 y1, boxToPx box2d w h = some (x0, y0, x1, y1) ∧
      0 ≤ x0 ∧ x0 ≤ w - 1 ∧ 1 ≤ x1 ∧ x1 ≤ w ∧
      0 ≤ y0 ∧ y0 ≤ h - 1 ∧ 1 ≤ y1 ∧ y1 ≤ h ∧
      x0 < x1 ∧ y0 < y1 :=
  boxToPx_bounds box2d w h hlen hw hh

/-- Witness for C1 at the concrete box `[500, 500, 1000, 1000]` on a
100×100 image. -/
theorem boxToPx_in_range_nondegenerate_witness :
    ([500, 500, 1000, 1000] : List ℚ).length = 4 ∧
    ∃ x0 y0 x1 y1,
      boxToPx [500, 500, 1000, 1000] 100 100 = some (x0, y0, x1, y1) ∧
      0 ≤ x0 ∧ x0 ≤ 100 - 1 ∧ 1 ≤ x1 ∧ x1 ≤ 100 ∧
      0 ≤ y0 ∧ y0 ≤ 100 - 1 ∧ 1 ≤ y1 ∧ y1 ≤ 100 ∧
      x0 < x1 ∧ y0 < y1 :=
  ⟨rfl, boxToPx_in_range_nondegenerate [500, 500, 1000, 1000] 100 100 rfl
    (by decide) (by decide)⟩

/-- Fold invariant for `bestIndex`: the accumulated index is in range (or 0),
carries the maximal score seen so far, and every earlier index scores
strictly lower. -/
theorem bestIndex_fold_spec (s : List ℚ) (n : ℕ) :
    ((List.range n).foldl (bestStep s) 0 = 0 ∨
      (List.range n).foldl (bestStep s) 0 < n) ∧
    (∀ k < n, s.getD k 0 ≤ s.getD ((List.range n).foldl (bestStep s) 0) 0) ∧
    (∀ k < (List.range n).foldl (bestStep s) 0,
      s.getD k 0 < s.getD ((List.range n).foldl (bestStep s) 0) 0) := by
  induction n with
  | zero => exact ⟨Or.inl rfl, by omega, by simp [List.range_zero]⟩
  | succ n ih =>
    obtain ⟨hb, hmax, hfirst⟩ := ih
    rw [List.range_succ, List.foldl_append]
    simp only [List.foldl_cons, List.foldl_nil]
    set b := (List.range n).foldl (bestStep s) 0 with hbdef
    unfold bestStep
    split_ifs with hlt
    · refine ⟨Or.inr (by omega), ?_, ?_⟩
      · intro k hk
        rcases Nat.lt_succ_iff_lt_or_eq.mp hk with hk' | hk'
        · exact le_of_lt (lt_of_le_of_lt (hmax k hk') hlt)
        · simp [hk']
      · intro k hk
        rcases Nat.lt_or_ge k b with hk' | hk'
        · exact lt_trans (hfirst k hk') hlt
        · exact lt_of_le_of_lt (hmax k hk) hlt
    · refine ⟨?_, ?_, hfirst⟩
      · rcases hb with hb | hb
        · exact Or.inl hb
        · exact Or.inr (by omega)
      · intro k hk
        rcases Nat.lt_succ_iff_lt_or_eq.mp hk with hk' | hk'
        · exact hmax k hk'
        · subst hk'; exact not_lt.mp hlt

/-- C2: `_select_candidate` honours an in-range explicit `candidate_index`
verbatim (whatever the scores are, including a zero score at that index);
without an in-range explicit index it selects the maximum score, ties broken
by the lowest original index. -/
theorem selectIndex_override_or_best (scores : List ℚ) (oidx : Option ℤ)
    (hne : scores ≠ []) :
    (∀ i : ℤ, oidx = some i → 0 ≤ i → i < scores.length →
      selectIndex scores oidx = i.toNat) ∧
    ((∀ i : ℤ, oidx = some i → ¬(0 ≤ i ∧ i < scores.length)) →
      selectIndex scores oidx < scores.length ∧
      (∀ k < scores.length,
        scores.getD k 0 ≤ scores.getD (selectIndex scores oidx) 0) ∧
      (∀ k < selectIndex scores oidx,
        scores.getD k 0 < scores.getD (selectIndex scores oidx) 0)) := by
  have hlen : 0 < scores.length := List.length_pos.mpr hne
  have hbest := bestIndex_fold_spec scores scores.length
  have hbrange : bestIndex scores < scores.length := by
    unfold bestIndex
    rcases hbest.1 with h | h
    · omega
    · exact h
  constructor
  · intro i hoidx h0 hlt
    subst hoidx
    simp only [selectIndex]
    rw [if_pos ⟨h0, hlt⟩]
  · intro hout
    have hsel : selectIndex scores oidx = bestIndex scores := by
      cases oidx with
      | none => rfl
      | some i =>
        simp only [selectIndex]
        rw [if_neg (hout i rfl)]
    rw [hsel]
    exact ⟨hbrange, hbest.2.1, hbest.2.2⟩

/-- Witness for C2: automatic selection on scores `[1/2, 3/4, 3/4]` (no
explicit index) picks an index carrying the maximal score with all earlier
indices strictly lower. -/
theorem selectIndex_override_or_best_witness :
    ([(1:ℚ)/2, 3/4, 3/4] : List ℚ) ≠ [] ∧
    (selectIndex [(1:ℚ)/2, 3/4, 3/4] none < 3 ∧
      (∀ k < 3, ([(1:ℚ)/2, 3/4, 3/4] : List ℚ).getD k 0 ≤
        ([(1:ℚ)/2, 3/4, 3/4] : List ℚ).getD (selectIndex [(1:ℚ)/2, 3/4, 3/4] none) 0) ∧
      (∀ k < selectIndex [(1:ℚ)/2, 3/4, 3/4] none,
        ([(1:ℚ)/2, 3/4, 3/4] : List ℚ).getD k 0 <
        ([(1:ℚ)/2, 3/4, 3/4] : List ℚ).getD (selectIndex [(1:ℚ)/2, 3/4, 3/4] none) 0)) :=
  ⟨by simp,
    (selectIndex_override_or_best [(1:ℚ)/2, 3/4, 3/4] none (by simp)).2
      (fun i h => by simp at h)⟩

/-- C8 counterexample: on a 100×100 image the box `[500, 500, 1000, 1000]`
converts to pixel box `(50, 50, 100, 100)`; mapping that pixel box through
`_map_box_to_full` with identity crop bounds returns `[50, 50, 100, 100]`,
whose first coordinate is 450 units away from the original 500. -/
theorem roundtrip_px_counterexample :
    boxToPx [500, 500, 1000, 1000] 100 100 = some (50, 50, 100, 100) ∧
    mapBoxToFull [50, 50, 100, 100] (0, 0, 100, 100) (100, 100) =
      some [50, 50, 100, 100] ∧
    ¬|(50 : ℚ) - 500| ≤ 1 := by
  refine ⟨?_, ?_, by norm_num [abs_of_nonpos]⟩
  · norm_num [boxToPx, roundHalfEven, clampLow, clampHigh, repairHigh]
  · norm_num [mapBoxToFull]

/-- Clamping to `[0, 1000]` is the identity on in-range integer casts. -/
theorem clampId (v : ℤ) (h0 : 0 ≤ v) (h1 : v ≤ 1000) :
    (0 : ℚ) ⊔ ((1000 : ℚ) ⊓ (v : ℚ)) = (v : ℚ) := by
  rw [min_eq_right (by exact_mod_cast h1), max_eq_right (by exact_mod_cast h0)]

/-- Bounds of one clamped-low rounded coordinate at dimension 1000. -/
theorem clampLow_round_bounds (v : ℚ) (h0 : 0 ≤ v) (h1 : v ≤ 1000) :
    0 ≤ clampLow 1000 (roundHalfEven v) ∧
    clampLow 1000 (roundHalfEven v) ≤ 999 ∧
    |(clampLow 1000 (roundHalfEven v) : ℚ) - v| ≤ 1 ∧
    (clampLow 1000 (roundHalfEven v) : ℚ) ≤ v + 1/2 := by
  obtain ⟨hr1, hr2⟩ := roundHalfEven_le v
  set a := roundHalfEven v with ha
  have ha0 : 0 ≤ a := by
    have hq : (-1 : ℚ) < (a : ℚ) := by linarith
    have hz : (-1 : ℤ) < a := by exact_mod_cast hq
    omega
  have ha1 : a ≤ 1000 := by
    have hq : (a : ℚ) < 1001 := by linarith
    have hz : a < 1001 := by exact_mod_cast hq
    omega
  rcases le_or_lt a 999 with hc | hc
  · have he : clampLow 1000 a = a := by unfold clampLow; omega
    rw [he]
    refine ⟨ha0, hc, ?_, hr2⟩
    rw [abs_le]
    constructor <;> linarith
  · have he : clampLow 1000 a = 999 := by unfold clampLow; omega
    have hv : (999 : ℚ) ≤ v := by
      have hq : (1000 : ℚ) ≤ (a : ℚ) := by exact_mod_cast hc
      linarith
    rw [he]
    refine ⟨by omega, le_refl _, ?_, by push_cast; linarith⟩
    rw [abs_le]
    push_cast
    constructor <;> linarith

/-- Bounds of one clamped-high rounded coordinate at dimension 1000. -/
theorem clampHigh_round_bounds (v : ℚ) (h0 : 0 ≤ v) (h1 : v ≤ 1000) :
    1 ≤ clampHigh 1000 (roundHalfEven v) ∧
    clampHigh 1000 (roundHalfEven v) ≤ 1000 ∧
    |(clampHigh 1000 (roundHalfEven v) : ℚ) - v| ≤ 1 := by
  obtain ⟨hr1, hr2⟩ := roundHalfEven_le v
  set a := roundHalfEven v with ha
  have ha0 : 0 ≤ a := by
    have hq : (-1 : ℚ) < (a : ℚ) := by linarith
    have hz : (-1 : ℤ) < a := by exact_mod_cast hq
    omega
  have ha1 : a ≤ 1000 := by
    have hq : (a : ℚ) < 1001 := by linarith
    have hz : a < 1001 := by exact_mod_cast hq
    omega
  rcases le_or_lt 1 a with hc | hc
  · have he : clampHigh 1000 a = a := by unfold clampHigh; omega
    rw [he]
    refine ⟨hc, ha1, ?_⟩
    rw [abs_le]
    constructor <;> linarith
  · have he : clampHigh 1000 a = 1 := by unfold clampHigh; omega
    have hv : v ≤ (1 : ℚ) := by
      have : (a : ℚ) ≤ ((0 : ℤ) : ℚ) := by exact_mod_cast (by omega : a ≤ 0)
      push_cast at this
      linarith
    rw [he]
    refine ⟨le_refl _, by omega, ?_⟩
    rw [abs_le]
    push_cast
    constructor <;> linarith

/-- C8 amended: on a 1000×1000 image — where pixel units and the 0..1000
normalized scale coincide — converting a proper normalized box to pixels
with `_box_to_px` and mapping the pixel box back through `_map_box_to_full`
with identity crop bounds yields each coordinate within 3/2 units of the
original (the degenerate-box repair can move a coordinate by more than 1). -/
theorem roundtrip_px_at_1000 (y0 x0 y1 x1 : ℚ)
    (hy00 : 0 ≤ y0) (hy01 : y0 ≤ 1000) (hx00 : 0 ≤ x0) (hx01 : x0 ≤ 1000)
    (hy10 : 0 ≤ y1) (hy11 : y1 ≤ 1000) (hx10 : 0 ≤ x1) (hx11 : x1 ≤ 1000)
    (hxlt : x0 < x1) (hylt : y0 < y1) :
    ∃ px0 py0 px1 py1,
      boxToPx [y0, x0, y1, x1] 1000 1000 = some (px0, py0, px1, py1) ∧
      mapBoxToFull [(py0 : ℚ), (px0 : ℚ), (py1 : ℚ), (px1 : ℚ)]
        (0, 0, 1000, 1000) (1000, 1000) =
        some [(py0 : ℚ), (px0 : ℚ), (py1 : ℚ), (px1 : ℚ)] ∧
      |(px0 : ℚ) - x0| ≤ 3/2 ∧ |(py0 : ℚ) - y0| ≤ 3/2 ∧
      |(px1 : ℚ) - x1| ≤ 3/2 ∧ |(py1 : ℚ) - y1| ≤ 3/2 := by
  have hcast : ((1000 : ℤ) : ℚ) = 1000 := by norm_num
  have hx0e : x0 / 1000 * ((1000 : ℤ) : ℚ) = x0 := by rw [hcast]; field_simp
  have hx1e : x1 / 1000 * ((1000 : ℤ) : ℚ) = x1 := by rw [hcast]; field_simp
  have hy0e : y0 / 1000 * ((1000 : ℤ) : ℚ) = y0 := by rw [hcast]; field_simp
  have hy1e : y1 / 1000 * ((1000 : ℤ) : ℚ) = y1 := by rw [hcast]; field_simp
  obtain ⟨hlx0, hlx9, hlxd, hlxh⟩ := clampLow_round_bounds x0 hx00 hx01
  obtain ⟨hly0, hly9, hlyd, hlyh⟩ := clampLow_round_bounds y0 hy00 hy01
  obtain ⟨hhx1, hhx9, hhxd⟩ := clampHigh_round_bounds x1 hx10 hx11
  obtain ⟨hhy1, hhy9, hhyd⟩ := clampHigh_round_bounds y1 hy10 hy11
  set lx := clampLow 1000 (roundHalfEven x0) with hlx
  set ly := clampLow 1000 (roundHalfEven y0) with hly
  set hx := clampHigh 1000 (roundHalfEven x1) with hhx
  set hy := clampHigh 1000 (roundHalfEven y1) with hhy
  have hrx : 1 ≤ repairHigh 1000 lx hx ∧ repairHigh 1000 lx hx ≤ 1000 := by
    unfold repairHigh; split_ifs <;> omega
  have hry : 1 ≤ repairHigh 1000 ly hy ∧ repairHigh 1000 ly hy ≤ 1000 := by
    unfold repairHigh; split_ifs <;> omega
  refine ⟨lx, ly, repairHigh 1000 lx hx, repairHigh 1000 ly hy, ?_, ?_, ?_, ?_, ?_, ?_⟩
  · simp only [boxToPx, hx0e, hx1e, hy0e, hy1e]
  · simp only [mapBoxToFull]
    refine congrArg some ?_
    simp only [List.cons.injEq, and_true]
    norm_num
    exact ⟨clampId ly hly0 (by omega), clampId lx hlx0 (by omega),
      clampId _ (by omega) hry.2, clampId _ (by omega) hrx.2⟩
  · rw [abs_le] at hlxd ⊢
    constructor <;> linarith
  · rw [abs_le] at hlyd ⊢
    constructor <;> linarith
  · unfold repairHigh
    split_ifs with hrep
    · have hmin : min 1000 (lx + 1) = lx + 1 := by omega
      rw [hmin, abs_le]
      rw [abs_le] at hlxd hhxd
      have hcrep : (hx : ℚ) ≤ (lx : ℚ) := by exact_mod_cast hrep
      push_cast
      constructor <;> linarith
    · rw [abs_le]; rw [abs_le] at hhxd
      constructor <;> linarith
  · unfold repairHigh
    split_ifs with hrep
    · have hmin : min 1000 (ly + 1) = ly + 1 := by omega
      rw [hmin, abs_le]
      rw [abs_le] at hlyd hhyd
      have hcrep : (hy : ℚ) ≤ (ly : ℚ) := by exact_mod_cast hrep
      push_cast
      constructor <;> linarith
    · rw [abs_le]; rw [abs_le] at hhyd
      constructor <;> linarith

/-- Witness for the amended C8 at the box `[100, 250, 800, 920]`. -/
theorem roundtrip_px_at_1000_witness :
    ∃ px0 py0 px1 py1,
      boxToPx [100, 250, 800, 920] 1000 1000 = some (px0, py0, px1, py1) ∧
      mapBoxToFull [(py0 : ℚ), (px0 : ℚ), (py1 : ℚ), (px1 : ℚ)]
        (0, 0, 1000, 1000) (1000, 1000) =
        some [(py0 : ℚ), (px0 : ℚ), (py1 : ℚ), (px1 : ℚ)] ∧
      |(px0 : ℚ) - 250| ≤ 3/2 ∧ |(py0 : ℚ) - 100| ≤ 3/2 ∧
      |(px1 : ℚ) - 920| ≤ 3/2 ∧ |(py1 : ℚ) - 800| ≤ 3/2 :=
  roundtrip_px_at_1000 100 250 800 920 (by norm_num) (by norm_num) (by norm_num)
    (by norm_num) (by norm_num) (by norm_num) (by norm_num) (by norm_num)
    (by norm_num) (by norm_num)

/-- Every cell belongs to its own component. -/
theorem mem_component_self (bg : Finset (ℕ × ℕ)) (p : ℕ × ℕ) :
    p ∈ component bg p := by
  unfold component
  have h : ∀ n, p ∈ (growOnce bg)^[n] {p} := by
    intro n
    induction n with
    | zero => simp
    | succ n ih =>
      rw [Function.iterate_succ_apply']
      exact Finset.mem_union_left _ ih
  exact h _

/-- C3: in the mask-cleanup hole-filling stage, every background connected
component whose bounding box does not touch the raster border and whose
area is below `max(1, height·width·holeRatio)` (holeRatio clamped into
`[0.001, 0.05]`) is filled into the foreground, and a component whose
bounding box touches the border is never filled, for every binary mask
reaching the loop. -/
theorem holeFill_interior_below_threshold (H W : ℕ) (px : ℕ → ℕ → Bool)
    (r : ℚ) (i j : ℕ) (hin : (i, j) ∈ bgSet H W px) :
    (touchesBorder H W (component (bgSet H W px) (i, j)) = false →
      ((component (bgSet H W px) (i, j)).card : ℚ) <
        max 1 ((H : ℚ) * W * holeRatioClamp r) →
      holeFill H W px r i j = true) ∧
    (touchesBorder H W (component (bgSet H W px) (i, j)) = true →
      holeFill H W px r i j = false) := by
  have hpx : px i j = false := (Finset.mem_filter.mp hin).2
  have hpos : 0 < (component (bgSet H W px) (i, j)).card :=
    Finset.card_pos.mpr ⟨(i, j), mem_component_self _ _⟩
  constructor
  · intro htouch hcard
    have hle : ((component (bgSet H W px) (i, j)).card : ℤ) ≤ holeThresh H W r := by
      unfold holeThresh
      rcases le_or_lt ((H : ℚ) * W * holeRatioClamp r) 1 with hsm | hbig
      · rw [max_eq_left hsm] at hcard
        have : (1 : ℚ) ≤ ((component (bgSet H W px) (i, j)).card : ℚ) := by
          exact_mod_cast hpos
        linarith
      · rw [max_eq_right (le_of_lt hbig)] at hcard
        have hfl : ((component (bgSet H W px) (i, j)).card : ℤ) ≤
            ⌊(H : ℚ) * W * holeRatioClamp r⌋ := by
          rw [Int.le_floor]
          push_cast
          linarith
        exact le_trans hfl (le_max_right _ _)
    simp only [holeFill, hpx, Bool.false_eq_true, if_false, if_pos hin, htouch,
      Bool.not_false, Bool.true_and, decide_eq_true_eq]
    exact hle
  · intro htouch
    simp only [holeFill, hpx, Bool.false_eq_true, if_false, if_pos hin, htouch,
      Bool.not_true, Bool.false_and]

/-- Witness for C3: a 12×12 solid mask with a single interior hole at
`(5, 5)`; the hole is filled under the default hole ratio 0.01. -/
theorem holeFill_interior_below_threshold_witness :
    ((5, 5) ∈ bgSet 12 12 (fun i j => !(i == 5 && j == 5))) ∧
    holeFill 12 12 (fun i j => !(i == 5 && j == 5)) (1/100) 5 5 = true := by
  have hin : (5, 5) ∈ bgSet 12 12 (fun i j => !(i == 5 && j == 5)) := by decide
  refine ⟨hin,
    (holeFill_interior_below_threshold 12 12 _ (1/100) 5 5 hin).1 (by decide) ?_⟩
  have hc : (component (bgSet 12 12 (fun i j => !(i == 5 && j == 5))) (5, 5)).card = 1 := by
    decide
  rw [hc]
  norm_num [holeRatioClamp, min_def, max_def]

/-- C4 counterexample: when the ROI pass selects a candidate whose
`box_2d` has only three entries, the reprojection step raises after the
refined mask has already been assigned — the box reverts to the first-pass
value but the mask does not, so box and mask do not revert together. -/
theorem roiRefine_keeps_refined_mask_on_reproject_failure :
    mapBoxToFull [0, 0, 1000] (0, 0, 10, 10) (10, 10) = none ∧
    (roiRefine ("first-mask") ("first-label") [0, 0, 1000, 1000]
      (some [(⟨"roi-label", [0, 0, 1000], "roi-mask"⟩, 0)])
      (0, 0, 10, 10) (10, 10)).box = [0, 0, 1000, 1000] ∧
    (roiRefine ("first-mask") ("first-label") [0, 0, 1000, 1000]
      (some [(⟨"roi-label", [0, 0, 1000], "roi-mask"⟩, 0)])
      (0, 0, 10, 10) (10, 10)).mask ≠ "first-mask" := by
  refine ⟨rfl, rfl, ?_⟩
  decide

/-- C4 amended: on a refinement failure the pipeline always continues with
the first-pass box; the mask also reverts when the failure happens while
obtaining or selecting ROI candidates, but when reprojection of the
selected box fails the already-assigned refined mask and label are kept. -/
theorem roiRefine_fallback (fm fl : String) (fb : List ℚ)
    (rc : Option (List (RoiCandidate × ℚ)))
    (bounds : ℤ × ℤ × ℤ × ℤ) (full : ℤ × ℤ) :
    (rc = none → roiRefine fm fl fb rc bounds full = ⟨fm, fl, fb⟩) ∧
    (∀ scored, rc = some scored → selectFromScored scored = none →
      roiRefine fm fl fb rc bounds full = ⟨fm, fl, fb⟩) ∧
    (∀ scored sel, rc = some scored → selectFromScored scored = some sel →
      mapBoxToFull sel.box2d bounds full = none →
      roiRefine fm fl fb rc bounds full = ⟨sel.mask, sel.label, fb⟩) := by
  refine ⟨?_, ?_, ?_⟩
  · rintro rfl; rfl
  · rintro scored rfl hsel
    simp [roiRefine, hsel]
  · rintro scored sel rfl hsel hmap
    simp [roiRefine, hsel, hmap]

/-- Witness for the amended C4: a provider failure in the ROI pass leaves
the first-pass mask, label and box unchanged. -/
theorem roiRefine_fallback_witness :
    (none : Option (List (RoiCandidate × ℚ))) = none ∧
    roiRefine ("m") ("l") [1, 2, 3, 4] none (0, 0, 10, 10) (10, 10) =
      ⟨"m", "l", [1, 2, 3, 4]⟩ :=
  ⟨rfl, (roiRefine_fallback ("m") ("l") [1, 2, 3, 4] none (0, 0, 10, 10) (10, 10)).1 rfl⟩

/-- C5: in forced `local` mode, an `InferenceError` (or `ModelLoadError`)
from the local capability makes candidate generation fail with a terminal
error whose message starts with `Local processing failed`, and the Gemini
chain is never consulted. -/
theorem local_mode_failure_is_terminal
    (attemptFull attemptSmall : ℕ → Except SdkFailure String)
    (legacy : Except SdkFailure String)
    (parse : String → Except PipeErr (List GemCandidate))
    (maxEdge : ℕ) (le : LocalErr) (m : String)
    (h : le = .inference m ∨ le = .modelLoad m) :
    (generateWithFallback .localMode attemptFull attemptSmall legacy parse
      maxEdge (.error le)).2 = false ∧
    ∃ inner,
      (generateWithFallback .localMode attemptFull attemptSmall legacy parse
        maxEdge (.error le)).1 = .error (.localFailed inner) ∧
      ∃ rest, errMessage (.localFailed inner) = "Local processing failed" ++ rest := by
  rcases h with rfl | rfl <;>
  · refine ⟨rfl, "Local processing failed: " ++ m, rfl, ": " ++ ("Local processing failed: " ++ m), ?_⟩
    show ("Local processing failed: ") ++ ("Local processing failed: " ++ m) =
      "Local processing failed" ++ (": " ++ ("Local processing failed: " ++ m))
    rw [← String.append_assoc]
    rfl

/-- Witness for C5 at a concrete inference failure. -/
theorem local_mode_failure_is_terminal_witness :
    ((LocalErr.inference ("boom") = LocalErr.inference ("boom") ∨
      LocalErr.inference ("boom") = LocalErr.modelLoad ("boom"))) ∧
    ((generateWithFallback .localMode (fun _ => .error ⟨false, 0, "unused"⟩)
        (fun _ => .error ⟨false, 0, "unused"⟩) (.error ⟨false, 0, "unused"⟩)
        (fun _ => .error .badFormat) 2048 (.error (.inference ("boom")))).2 = false ∧
      ∃ inner,
        (generateWithFallback .localMode (fun _ => .error ⟨false, 0, "unused"⟩)
          (fun _ => .error ⟨false, 0, "unused"⟩) (.error ⟨false, 0, "unused"⟩)
          (fun _ => .error .badFormat) 2048 (.error (.inference ("boom")))).1
          = .error (.localFailed inner) ∧
        ∃ rest, errMessage (.localFailed inner) = "Local processing failed" ++ rest) :=
  ⟨Or.inl rfl,
    local_mode_failure_is_terminal (fun _ => .error ⟨false, 0, "unused"⟩)
      (fun _ => .error ⟨false, 0, "unused"⟩) (.error ⟨false, 0, "unused"⟩)
      (fun _ => .error .badFormat) 2048 (.inference ("boom")) ("boom") (Or.inl rfl)⟩

/-- C6: in `auto` mode, when every Gemini attempt (for both prepared image
sizes) fails with a quota error and the local capability succeeds,
candidate generation returns normally and the result is tagged
`rmbg-local`. -/
theorem auto_mode_quota_falls_back_to_local
    (attemptFull attemptSmall : ℕ → Except SdkFailure String)
    (legacy : Except SdkFailure String)
    (parse : String → Except PipeErr (List GemCandidate))
    (maxEdge : ℕ) (r : LocalOk)
    (hF : ∀ i, ∃ f, attemptFull i = .error f ∧ f.isQuota = true) :
    ∃ cands,
      generateWithFallback .autoMode attemptFull attemptSmall legacy parse
        maxEdge (.ok r) = (.ok (cands, "rmbg-local"), true) := by
  obtain ⟨f0, h0, hq0⟩ := hF 0
  obtain ⟨f1, h1, hq1⟩ := hF 1
  have hretry : generateWithRetry attemptFull legacy =
      .error (.quotaExceeded f1.retryAfter) := by
    unfold generateWithRetry
    rw [h0, h1]
    simp [retryLoop, hq0, hq1]
  have hchain : generateCandidates attemptFull legacy parse =
      .error (.quotaExceeded f1.retryAfter) := by
    unfold generateCandidates
    rw [hretry]
  have hsize : genCandidatesWithSizeRetry attemptFull attemptSmall legacy parse maxEdge =
      .error (.quotaExceeded f1.retryAfter) := by
    unfold genCandidatesWithSizeRetry
    rw [hchain]
  refine ⟨[wrapLocal r], ?_⟩
  unfold generateWithFallback
  rw [hsize]
  rfl

/-- Witness for C6 at a concrete always-quota Gemini oracle and a
successful local run. -/
theorem auto_mode_quota_falls_back_to_local_witness :
    (∀ i : ℕ, ∃ f,
      (fun (_ : ℕ) => (.error ⟨true, 45, "429 quota"⟩ : Except SdkFailure String)) i
      = .error f ∧ f.isQuota = true) ∧
    ∃ cands,
      generateWithFallback .autoMode (fun _ => .error ⟨true, 45, "429 quota"⟩)
        (fun _ => .error ⟨true, 45, "429 quota"⟩) (.error ⟨false, 0, "legacy"⟩)
        (fun _ => .error .badFormat) 2048
        (.ok ⟨"cut", "maskbytes", "product", 95/100, "cpu", 12⟩)
        = (.ok (cands, "rmbg-local"), true) :=
  ⟨fun _ => ⟨⟨true, 45, "429 quota"⟩, rfl, rfl⟩,
    auto_mode_quota_falls_back_to_local (fun _ => .error ⟨true, 45, "429 quota"⟩)
      (fun _ => .error ⟨true, 45, "429 quota"⟩) (.error ⟨false, 0, "legacy"⟩)
      (fun _ => .error .badFormat) 2048 ⟨"cut", "maskbytes", "product", 95/100, "cpu", 12⟩
      (fun _ => ⟨⟨true, 45, "429 quota"⟩, rfl, rfl⟩)⟩

theorem clip01_nonneg (x : ℝ) : 0 ≤ clip01 x := le_max_left 0 _

theorem clip01_le_one (x : ℝ) : clip01 x ≤ 1 :=
  max_le zero_le_one (min_le_left 1 x)

theorem centerScore_nonneg (x0 y0 x1 y1 : ℤ) (w h : ℕ) :
    0 ≤ centerScore x0 y0 x1 y1 w h := by
  unfold centerScore
  split_ifs
  · exact le_refl 0
  · exact clip01_nonneg _

theorem centerScore_le_one (x0 y0 x1 y1 : ℤ) (w h : ℕ) :
    centerScore x0 y0 x1 y1 w h ≤ 1 := by
  unfold centerScore
  split_ifs
  · exact zero_le_one
  · exact clip01_le_one _

theorem areaScore_nonneg (a b c : ℝ) : 0 ≤ areaScore a b c := by
  unfold areaScore
  split_ifs <;> first | exact le_refl 0 | exact clip01_nonneg _ | exact zero_le_one

theorem areaScore_le_one (a b c : ℝ) : areaScore a b c ≤ 1 := by
  unfold areaScore
  split_ifs <;> first | exact zero_le_one | exact clip01_le_one _ | exact le_refl 1

theorem confScore_nonneg (c : Option ℚ) : 0 ≤ confScore c := clip01_nonneg _

theorem confScore_le_one (c : Option ℚ) : confScore c ≤ 1 := clip01_le_one _

theorem rectScore_nonneg (f : Option ℝ) : 0 ≤ rectScore f := by
  cases f with
  | none => norm_num [rectScore]
  | some f => exact clip01_nonneg _

theorem rectScore_le_one (f : Option ℝ) : rectScore f ≤ 1 := by
  cases f with
  | none => norm_num [rectScore]
  | some f => exact clip01_le_one _

theorem edgeScore_nonneg (e : ℝ) : 0 ≤ edgeScore e := clip01_nonneg _

theorem edgeScore_le_one (e : ℝ) : edgeScore e ≤ 1 := clip01_le_one _

/-- A box with valid pixel bounds has a strictly positive center score: its
center lies strictly inside the image, so its distance to the image center
is strictly below the corner distance. -/
theorem centerScore_pos (x0 y0 x1 y1 : ℤ) (w h : ℕ) (hw : 1 ≤ w) (hh : 1 ≤ h)
    (hx0 : 0 ≤ x0) (hx1 : x1 ≤ (w : ℤ)) (hy0 : 0 ≤ y0) (hy1 : y1 ≤ (h : ℤ))
    (hxlt : x0 < x1) (hylt : y0 < y1) :
    0 < centerScore x0 y0 x1 y1 w h := by
  have hwR : (1 : ℝ) ≤ (w : ℝ) := by exact_mod_cast hw
  have hhR : (1 : ℝ) ≤ (h : ℝ) := by exact_mod_cast hh
  have hmaxpos : 0 < Real.sqrt (((w : ℝ) / 2)^2 + ((h : ℝ) / 2)^2) := by
    apply Real.sqrt_pos.mpr
    have h1 : (0 : ℝ) < ((w : ℝ) / 2)^2 := by positivity
    have h2 : (0 : ℝ) ≤ ((h : ℝ) / 2)^2 := sq_nonneg _
    linarith
  have hx0R : (0 : ℝ) ≤ (x0 : ℝ) := by exact_mod_cast hx0
  have hx1R : (x1 : ℝ) ≤ (w : ℝ) := by exact_mod_cast hx1
  have hy0R : (0 : ℝ) ≤ (y0 : ℝ) := by exact_mod_cast hy0
  have hy1R : (y1 : ℝ) ≤ (h : ℝ) := by exact_mod_cast hy1
  have hxltR : (x0 : ℝ) < (x1 : ℝ) := by exact_mod_cast hxlt
  have hyltR : (y0 : ℝ) < (y1 : ℝ) := by exact_mod_cast hylt
  have hxlt1 : (x0 : ℝ) + 1 ≤ (x1 : ℝ) := by exact_mod_cast hxlt
  have hylt1 : (y0 : ℝ) + 1 ≤ (y1 : ℝ) := by exact_mod_cast hylt
  have hdx : (((x0 : ℝ) + (x1 : ℝ)) / 2 - (w : ℝ) / 2)^2 < ((w : ℝ) / 2)^2 := by
    apply sq_lt_sq' <;> nlinarith
  have hdy : (((y0 : ℝ) + (y1 : ℝ)) / 2 - (h : ℝ) / 2)^2 < ((h : ℝ) / 2)^2 := by
    apply sq_lt_sq' <;> nlinarith
  have hdist : Real.sqrt ((((x0 : ℝ) + (x1 : ℝ)) / 2 - (w : ℝ) / 2)^2 +
      (((y0 : ℝ) + (y1 : ℝ)) / 2 - (h : ℝ) / 2)^2) <
      Real.sqrt (((w : ℝ) / 2)^2 + ((h : ℝ) / 2)^2) := by
    apply Real.sqrt_lt_sqrt
    · positivity
    · linarith
  have hratio : Real.sqrt ((((x0 : ℝ) + (x1 : ℝ)) / 2 - (w : ℝ) / 2)^2 +
      (((y0 : ℝ) + (y1 : ℝ)) / 2 - (h : ℝ) / 2)^2) /
      Real.sqrt (((w : ℝ) / 2)^2 + ((h : ℝ) / 2)^2) < 1 :=
    (div_lt_one hmaxpos).mpr hdist
  unfold centerScore
  rw [if_neg (not_le.mpr hmaxpos)]
  unfold clip01
  have hpos : 0 < 1 - Real.sqrt ((((x0 : ℝ) + (x1 : ℝ)) / 2 - (w : ℝ) / 2)^2 +
      (((y0 : ℝ) + (y1 : ℝ)) / 2 - (h : ℝ) / 2)^2) /
      Real.sqrt (((w : ℝ) / 2)^2 + ((h : ℝ) / 2)^2) := by linarith
  have hmin : 0 < min 1 (1 - Real.sqrt ((((x0 : ℝ) + (x1 : ℝ)) / 2 - (w : ℝ) / 2)^2 +
      (((y0 : ℝ) + (y1 : ℝ)) / 2 - (h : ℝ) / 2)^2) /
      Real.sqrt (((w : ℝ) / 2)^2 + ((h : ℝ) / 2)^2)) :=
    lt_min one_pos hpos
  exact lt_of_lt_of_le hmin (le_max_right _ _)

/-- The focus-mode base score is positive when the center metric is and the
others are nonnegative. -/
theorem baseScore_pos (fm : String) (conf center area rect edge : ℝ)
    (hconf : 0 ≤ conf) (harea : 0 ≤ area) (hrect : 0 ≤ rect)
    (hedge : 0 ≤ edge) (hcenter : 0 < center) :
    0 < baseScore fm conf center area rect edge := by
  unfold baseScore
  split_ifs <;> nlinarith

/-- The focus-mode base score is at most 1 when every metric is at most 1
(each weighting is convex). -/
theorem baseScore_le_one (fm : String) (conf center area rect edge : ℝ)
    (hconf1 : conf ≤ 1) (hc1 : center ≤ 1) (ha1 : area ≤ 1) (hr1 : rect ≤ 1)
    (he1 : edge ≤ 1) :
    baseScore fm conf center area rect edge ≤ 1 := by
  unfold baseScore
  split_ifs <;> nlinarith

/-- Helper: `boxToPx` only succeeds on four-entry boxes. -/
theorem boxToPx_some_length (box2d : List ℚ) (w h : ℤ) (t : ℤ × ℤ × ℤ × ℤ)
    (heq : boxToPx box2d w h = some t) : box2d.length = 4 := by
  match box2d with
  | [] => simp [boxToPx] at heq
  | [_] => simp [boxToPx] at heq
  | [_, _] => simp [boxToPx] at heq
  | [_, _, _] => simp [boxToPx] at heq
  | [_, _, _, _] => rfl
  | _ :: _ :: _ :: _ :: _ :: _ => simp [boxToPx] at heq

/-- Bounds of `boxToPx` phrased for a known result tuple. -/
theorem boxToPx_bounds_of_eq (box2d : List ℚ) (w h : ℤ) (x0 y0 x1 y1 : ℤ)
    (hbox : boxToPx box2d w h = some (x0, y0, x1, y1))
    (hw : 1 ≤ w) (hh : 1 ≤ h) :
    0 ≤ x0 ∧ x0 ≤ w - 1 ∧ 1 ≤ x1 ∧ x1 ≤ w ∧
    0 ≤ y0 ∧ y0 ≤ h - 1 ∧ 1 ≤ y1 ∧ y1 ≤ h ∧ x0 < x1 ∧ y0 < y1 := by
  obtain ⟨a, b, c, d, heq, hb⟩ :=
    boxToPx_bounds box2d w h (boxToPx_some_length box2d w h _ hbox) hw hh
  rw [hbox] at heq
  have e := Option.some.inj heq
  simp only [Prod.ext_iff] at e
  obtain ⟨e1, e2, e3, e4⟩ := e
  subst e1; subst e2; subst e3; subst e4
  exact hb

/-- C7: a candidate whose pixel box touches all four image edges within the
border margin scores strictly lower with `allow_border_touch = False` than
the identical candidate with `allow_border_touch = True`, for every focus
mode (and any confidence, mask-fill and edge-density data). -/
theorem border_touch_penalty_strictly_lowers (focusMode : String)
    (box2d : List ℚ) (w h : ℕ) (conf : Option ℚ) (rectFill : Option ℝ)
    (edgeRaw : ℝ) (areaMin areaMax : ℝ) (hw : 1 ≤ w) (hh : 1 ≤ h)
    (x0 y0 x1 y1 : ℤ) (hbox : boxToPx box2d (w : ℤ) (h : ℤ) = some (x0, y0, x1, y1))
    (ht1 : x0 ≤ borderMargin w h) (ht2 : y0 ≤ borderMargin w h)
    (ht3 : (w : ℤ) - borderMargin w h ≤ x1)
    (ht4 : (h : ℤ) - borderMargin w h ≤ y1) :
    ∃ sf st : ℝ,
      scoreCandidate focusMode false box2d w h conf rectFill edgeRaw
        areaMin areaMax = some sf ∧
      scoreCandidate focusMode true box2d w h conf rectFill edgeRaw
        areaMin areaMax = some st ∧
      sf < st := by
  have hwZ : (1 : ℤ) ≤ (w : ℤ) := by exact_mod_cast hw
  have hhZ : (1 : ℤ) ≤ (h : ℤ) := by exact_mod_cast hh
  obtain ⟨hb1, hb2, hb3, hb4, hb5, hb6, hb7, hb8, hb9, hb10⟩ :=
    boxToPx_bounds_of_eq box2d (w : ℤ) (h : ℤ) x0 y0 x1 y1 hbox hwZ hhZ
  have hcount : borderTouchCount x0 y0 x1 y1 w h = 4 := by
    unfold borderTouchCount
    rw [if_pos ht1, if_pos ht2, if_pos ht3, if_pos ht4]
  have hpf : borderTouchPenalty x0 y0 x1 y1 w h false = 0.35 := by
    unfold borderTouchPenalty
    rw [hcount]
    norm_num
  have hpt : borderTouchPenalty x0 y0 x1 y1 w h true = 0 := by
    unfold borderTouchPenalty
    norm_num
  have hcenter : 0 < centerScore x0 y0 x1 y1 w h :=
    centerScore_pos x0 y0 x1 y1 w h hw hh hb1 hb4 hb5 hb8 hb9 hb10
  set base := baseScore focusMode (confScore conf) (centerScore x0 y0 x1 y1 w h)
    (areaScore (areaRatioOf x0 y0 x1 y1 w h) areaMin areaMax)
    (rectScore rectFill) (edgeScore edgeRaw) with hbdef
  have hbase0 : 0 < base :=
    baseScore_pos _ _ _ _ _ _ (confScore_nonneg conf)
      (areaScore_nonneg _ _ _) (rectScore_nonneg _) (edgeScore_nonneg _) hcenter
  have hbase1 : base ≤ 1 :=
    baseScore_le_one _ _ _ _ _ _ (confScore_le_one conf)
      (centerScore_le_one _ _ _ _ _ _) (areaScore_le_one _ _ _)
      (rectScore_le_one _) (edgeScore_le_one _)
  refine ⟨max 0 (min 1 (base - 0.35)), max 0 (min 1 (base - 0)), ?_, ?_, ?_⟩
  · unfold scoreCandidate
    rw [hbox, Option.map_some', hpf]
  · unfold scoreCandidate
    rw [hbox, Option.map_some', hpt]
  · have hst : max 0 (min 1 (base - 0)) = base := by
      rw [sub_zero, min_eq_right hbase1, max_eq_right (le_of_lt hbase0)]
    rw [hst]
    have hmin : min 1 (base - 0.35) = base - 0.35 := by
      apply min_eq_right
      linarith
    rw [hmin]
    rcases le_or_lt (base - 0.35) 0 with hz | hz
    · rw [max_eq_left hz]
      exact hbase0
    · rw [max_eq_right (le_of_lt hz)]
      linarith

/-- Witness for C7: the full-image box on a 100×100 image in `auto` focus
mode with no confidence, no decodable mask and zero edge data. -/
theorem border_touch_penalty_strictly_lowers_witness :
    boxToPx [0, 0, 1000, 1000] 100 100 = some (0, 0, 100, 100) ∧
    ∃ sf st : ℝ,
      scoreCandidate ("auto") false [0, 0, 1000, 1000] 100 100 none none 0
        (2/25) (7/10) = some sf ∧
      scoreCandidate ("auto") true [0, 0, 1000, 1000] 100 100 none none 0
        (2/25) (7/10) = some st ∧
      sf < st := by
  have hbox : boxToPx [0, 0, 1000, 1000] 100 100 = some (0, 0, 100, 100) := by
    norm_num [boxToPx, roundHalfEven, clampLow, clampHigh, repairHigh]
  exact ⟨hbox,
    border_touch_penalty_strictly_lowers ("auto") [0, 0, 1000, 1000] 100 100
      none none 0 (2/25) (7/10) (by norm_num) (by norm_num) 0 0 100 100 hbox
      (by decide) (by decide) (by decide) (by decide)⟩

/-- C10: with `feather = 0` the produced alpha channel is exactly the
cleaned-mask-gated `max(smoothed intensity, clamped threshold)`, so every
cell is either 0 or at least the clamped threshold — hence no nonzero alpha
value below the threshold can appear in the full-size cutout, nor in the
cropped cutout whose alpha raster is a sub-rectangle of the same channel. -/
theorem alpha_zero_or_at_least_threshold
    (blur : (ℕ → ℕ → ℤ) → (ℕ → ℕ → ℤ)) (cleaned : ℕ → ℕ → Bool)
    (maskNp : ℕ → ℕ → ℕ) (t : ℤ) (i j : ℕ) :
    applyMaskAlpha 0 blur cleaned maskNp t i j =
      alphaStage cleaned maskNp t i j ∧
    (applyMaskAlpha 0 blur cleaned maskNp t i j = 0 ∨
      clampThreshold t ≤ applyMaskAlpha 0 blur cleaned maskNp t i j) := by
  have h0 : applyMaskAlpha 0 blur cleaned maskNp t = alphaStage cleaned maskNp t := by
    unfold applyMaskAlpha
    norm_num
  refine ⟨by rw [h0], ?_⟩
  rw [h0]
  unfold alphaStage
  split_ifs with hc
  · exact Or.inr (le_max_right _ _)
  · exact Or.inl rfl

theorem b64Index_b64Char : ∀ n < 64, b64Index (b64Char n) = some n := by decide

theorem b64Char_spec (n : ℕ) :
    b64Char n ≠ '=' ∧ isWsChar (b64Char n) = false ∧
    b64Char n ≠ ':' ∧ b64Char n ≠ ',' := by
  by_cases h : n < 64
  · exact (by decide :
      ∀ m < 64, b64Char m ≠ '=' ∧ isWsChar (b64Char m) = false ∧
        b64Char m ≠ ':' ∧ b64Char m ≠ ',') n h
  · unfold b64Char
    rw [List.getD_eq_default _ _ (by
      have : b64Alphabet.length = 64 := by decide
      omega)]
    decide

/-- Characters of an encoded payload are alphabet characters or `=`. -/
theorem b64Encode_chars (bs : List (Fin 256)) :
    ∀ c ∈ b64Encode bs, (∃ n, c = b64Char n) ∨ c = '=' := by
  induction bs using b64Encode.induct with
  | case1 => intro c hc; simp [b64Encode] at hc
  | case2 x =>
    intro c hc
    simp only [b64Encode, List.mem_cons, List.not_mem_nil, or_false] at hc
    rcases hc with rfl | rfl | rfl | rfl
    · exact Or.inl ⟨_, rfl⟩
    · exact Or.inl ⟨_, rfl⟩
    · exact Or.inr rfl
    · exact Or.inr rfl
  | case3 x y =>
    intro c hc
    simp only [b64Encode, List.mem_cons, List.not_mem_nil, or_false] at hc
    rcases hc with rfl | rfl | rfl | rfl
    · exact Or.inl ⟨_, rfl⟩
    · exact Or.inl ⟨_, rfl⟩
    · exact Or.inl ⟨_, rfl⟩
    · exact Or.inr rfl
  | case4 x y z rest ih =>
    intro c hc
    simp only [b64Encode, List.mem_cons] at hc
    rcases hc with rfl | rfl | rfl | rfl | hc
    · exact Or.inl ⟨_, rfl⟩
    · exact Or.inl ⟨_, rfl⟩
    · exact Or.inl ⟨_, rfl⟩
    · exact Or.inl ⟨_, rfl⟩
    · exact ih c hc

/-- Characters of an unpadded encoded payload. -/
theorem b64EncodeRaw_chars (bs : List (Fin 256)) :
    ∀ c ∈ b64EncodeRaw bs, (∃ n, c = b64Char n) ∨ c = '=' := by
  induction bs using b64EncodeRaw.induct with
  | case1 => intro c hc; simp [b64EncodeRaw] at hc
  | case2 x =>
    intro c hc
    simp only [b64EncodeRaw, List.mem_cons, List.not_mem_nil, or_false] at hc
    rcases hc with rfl | rfl
    · exact Or.inl ⟨_, rfl⟩
    · exact Or.inl ⟨_, rfl⟩
  | case3 x y =>
    intro c hc
    simp only [b64EncodeRaw, List.mem_cons, List.not_mem_nil, or_false] at hc
    rcases hc with rfl | rfl | rfl
    · exact Or.inl ⟨_, rfl⟩
    · exact Or.inl ⟨_, rfl⟩
    · exact Or.inl ⟨_, rfl⟩
  | case4 x y z rest ih =>
    intro c hc
    simp only [b64EncodeRaw, List.mem_cons] at hc
    rcases hc with rfl | rfl | rfl | rfl | hc
    · exact Or.inl ⟨_, rfl⟩
    · exact Or.inl ⟨_, rfl⟩
    · exact Or.inl ⟨_, rfl⟩
    · exact Or.inl ⟨_, rfl⟩
    · exact ih c hc

/-- Decoding inverts encoding on padded payloads. -/
theorem b64DecodeGroups_b64Encode (bs : List (Fin 256)) :
    b64DecodeGroups (b64Encode bs) = some (bs.map Fin.val) := by
  induction bs using b64Encode.induct with
  | case1 => rfl
  | case2 x =>
    have hx := x.isLt
    have h1 : b64Index (b64Char (x.val / 4)) = some (x.val / 4) :=
      b64Index_b64Char _ (by omega)
    have h2 : b64Index (b64Char (x.val % 4 * 16)) = some (x.val % 4 * 16) :=
      b64Index_b64Char _ (by omega)
    simp [b64Encode, b64DecodeGroups, h1, h2]
    all_goals omega
  | case3 x y =>
    have hx := x.isLt
    have hy := y.isLt
    have h1 : b64Index (b64Char (x.val / 4)) = some (x.val / 4) :=
      b64Index_b64Char _ (by omega)
    have h2 : b64Index (b64Char (x.val % 4 * 16 + y.val / 16)) =
        some (x.val % 4 * 16 + y.val / 16) := b64Index_b64Char _ (by omega)
    have h3 : b64Index (b64Char (y.val % 16 * 4)) = some (y.val % 16 * 4) :=
      b64Index_b64Char _ (by omega)
    have hne : b64Char (y.val % 16 * 4) ≠ '=' := (b64Char_spec _).1
    simp [b64Encode, b64DecodeGroups, h1, h2, h3, hne]
    all_goals omega
  | case4 x y z rest ih =>
    have hx := x.isLt
    have hy := y.isLt
    have hz := z.isLt
    have h1 : b64Index (b64Char (x.val / 4)) = some (x.val / 4) :=
      b64Index_b64Char _ (by omega)
    have h2 : b64Index (b64Char (x.val % 4 * 16 + y.val / 16)) =
        some (x.val % 4 * 16 + y.val / 16) := b64Index_b64Char _ (by omega)
    have h3 : b64Index (b64Char (y.val % 16 * 4 + z.val / 64)) =
        some (y.val % 16 * 4 + z.val / 64) := b64Index_b64Char _ (by omega)
    have h4 : b64Index (b64Char (z.val % 64)) = some (z.val % 64) :=
      b64Index_b64Char _ (by omega)
    have hne3 : b64Char (y.val % 16 * 4 + z.val / 64) ≠ '=' := (b64Char_spec _).1
    have hne4 : b64Char (z.val % 64) ≠ '=' := (b64Char_spec _).1
    simp [b64Encode, b64DecodeGroups, h1, h2, h3, h4, hne3, hne4, ih]
    all_goals omega

/-- Re-padding the unpadded payload recovers the padded one. -/
theorem padTo4_b64EncodeRaw (bs : List (Fin 256)) :
    padTo4 (b64EncodeRaw bs) = b64Encode bs := by
  induction bs using b64EncodeRaw.induct with
  | case1 => rfl
  | case2 x => rfl
  | case3 x y => rfl
  | case4 x y z rest ih =>
    show padTo4 (_ :: _ :: _ :: _ :: b64EncodeRaw rest) = _
    unfold padTo4
    have hlen : (b64Char (x.val / 4) :: b64Char (x.val % 4 * 16 + y.val / 16) ::
        b64Char (y.val % 16 * 4 + z.val / 64) :: b64Char (z.val % 64) ::
        b64EncodeRaw rest).length % 4 = (b64EncodeRaw rest).length % 4 := by
      simp [List.length_cons]
      omega
    rw [hlen]
    unfold padTo4 at ih
    split_ifs with h
    · rw [if_pos h] at ih
      simp only [b64Encode]
      rw [← ih]
    · rw [if_neg h] at ih
      simp only [b64Encode]
      rw [← ih]
      simp [List.append_assoc]

/-- The padded payload already has length divisible by four. -/
theorem padTo4_b64Encode (bs : List (Fin 256)) :
    padTo4 (b64Encode bs) = b64Encode bs := by
  have hlen : ∀ cs : List (Fin 256), (b64Encode cs).length % 4 = 0 := by
    intro cs
    induction cs using b64Encode.induct with
    | case1 => rfl
    | case2 x => simp [b64Encode]
    | case3 x y => simp [b64Encode]
    | case4 x y z rest ih => simp [b64Encode, List.length_cons]; omega
  unfold padTo4
  rw [if_pos (hlen bs)]

theorem WsInterleave.removeWs_eq {s t : List Char} (h : WsInterleave s t)
    (hs : ∀ c ∈ s, isWsChar c = false) : removeWs t = s := by
  induction h with
  | nil => rfl
  | keep c hrec ih =>
    have hc : isWsChar c = false := hs c (List.mem_cons_self _ _)
    simp only [removeWs, List.filter_cons, hc, Bool.not_false, if_pos trivial]
    exact congrArg (List.cons c) (ih (fun d hd => hs d (List.mem_cons_of_mem _ hd)))
  | ws c hc hrec ih =>
    simp only [removeWs, List.filter_cons, hc, Bool.not_true]
    exact ih hs

theorem WsInterleave.mem_of {s t : List Char} (h : WsInterleave s t) :
    ∀ c ∈ s, c ∈ t := by
  induction h with
  | nil => intro c hc; exact absurd hc (List.not_mem_nil c)
  | keep c hrec ih =>
    intro d hd
    rcases List.mem_cons.mp hd with rfl | hd
    · exact List.mem_cons_self _ _
    · exact List.mem_cons_of_mem _ (ih d hd)
  | ws c hc hrec ih =>
    intro d hd
    exact List.mem_cons_of_mem _ (ih d hd)

theorem WsInterleave.mem_or {s t : List Char} (h : WsInterleave s t) :
    ∀ c ∈ t, c ∈ s ∨ isWsChar c = true := by
  induction h with
  | nil => intro c hc; exact absurd hc (List.not_mem_nil c)
  | keep c hrec ih =>
    intro d hd
    rcases List.mem_cons.mp hd with rfl | hd
    · exact Or.inl (List.mem_cons_self _ _)
    · rcases ih d hd with hmem | hws
      · exact Or.inl (List.mem_cons_of_mem _ hmem)
      · exact Or.inr hws
  | ws c hc hrec ih =>
    intro d hd
    rcases List.mem_cons.mp hd with rfl | hd
    · exact Or.inr hc
    · exact ih d hd

theorem removeWs_dropWhileWs (s : List Char) :
    removeWs (s.dropWhile isWsChar) = removeWs s := by
  induction s with
  | nil => rfl
  | cons a s ih =>
    rw [List.dropWhile_cons]
    by_cases ha : isWsChar a = true
    · rw [if_pos ha, ih]
      simp [removeWs, List.filter_cons, ha]
    · rw [if_neg ha]

theorem removeWs_reverse (s : List Char) :
    removeWs s.reverse = (removeWs s).reverse :=
  List.filter_reverse _ s

theorem removeWs_dropTrailWs (s : List Char) :
    removeWs (dropTrailWs s) = removeWs s := by
  unfold dropTrailWs
  rw [removeWs_reverse, removeWs_dropWhileWs, removeWs_reverse,
    List.reverse_reverse]

theorem removeWs_stripWs (s : List Char) :
    removeWs (stripWs s) = removeWs s := by
  unfold stripWs
  rw [removeWs_dropTrailWs, removeWs_dropWhileWs]

theorem mem_stripWs {c : Char} {s : List Char} (h : c ∈ stripWs s) : c ∈ s := by
  unfold stripWs dropTrailWs at h
  have h1 := List.mem_reverse.mp h
  have h2 := (List.dropWhile_sublist _).subset h1
  have h3 := List.mem_reverse.mp h2
  exact (List.dropWhile_sublist _).subset h3

/-- Characters of any encoded payload are neither whitespace nor `:`. -/
theorem payload_chars (bs : List (Fin 256)) (pay : List Char)
    (hpay : pay = b64Encode bs ∨ pay = b64EncodeRaw bs) :
    ∀ c ∈ pay, isWsChar c = false ∧ c ≠ ':' := by
  intro c hc
  have h : (∃ n, c = b64Char n) ∨ c = '=' := by
    rcases hpay with rfl | rfl
    · exact b64Encode_chars bs c hc
    · exact b64EncodeRaw_chars bs c hc
  rcases h with ⟨n, rfl⟩ | rfl
  · exact ⟨(b64Char_spec n).2.1, (b64Char_spec n).2.2.1⟩
  · exact ⟨by decide, by decide⟩

theorem b64Encode_ne_nil (bs : List (Fin 256)) (h : bs ≠ []) :
    b64Encode bs ≠ [] := by
  match bs with
  | [] => exact absurd rfl h
  | [x] => simp [b64Encode]
  | [x, y] => simp [b64Encode]
  | x :: y :: z :: rest => simp [b64Encode]

theorem b64EncodeRaw_ne_nil (bs : List (Fin 256)) (h : bs ≠ []) :
    b64EncodeRaw bs ≠ [] := by
  match bs with
  | [] => exact absurd rfl h
  | [x] => simp [b64EncodeRaw]
  | [x, y] => simp [b64EncodeRaw]
  | x :: y :: z :: rest => simp [b64EncodeRaw]

theorem not_data_header {s : List Char} (h : ':' ∉ s) :
    ("data:".toList).isPrefixOf s = false := by
  rw [Bool.eq_false_iff]
  intro htrue
  have hpre := List.isPrefixOf_iff_prefix.mp htrue
  exact h (hpre.sublist.subset (by decide : ':' ∈ "data:".toList))

theorem stripWs_data_header (mid t : List Char)
    (hw : ∃ c ∈ t, isWsChar c = false) :
    stripWs ("data:".toList ++ mid ++ [','] ++ t) =
    "data:".toList ++ mid ++ [','] ++ dropTrailWs t := by
  have hassoc : "data:".toList ++ mid ++ [','] ++ t =
      'd' :: ("ata:".toList ++ mid ++ [','] ++ t) := by simp
  unfold stripWs
  rw [hassoc, List.dropWhile_cons]
  rw [if_neg (by decide : ¬isWsChar 'd' = true)]
  rw [← hassoc]
  unfold dropTrailWs
  have hsplit : "data:".toList ++ mid ++ [','] ++ t =
      ("data:".toList ++ mid ++ [',']) ++ t := by simp
  rw [hsplit, List.reverse_append, List.dropWhile_append]
  have hne : (t.reverse.dropWhile isWsChar).isEmpty = false := by
    obtain ⟨c, hct, hcw⟩ := hw
    rw [List.isEmpty_eq_false_iff_exists_mem]
    by_contra hcon
    push_neg at hcon
    have hall := List.dropWhile_eq_nil_iff.mp (List.eq_nil_iff_forall_not_mem.mpr hcon)
    have := hall c (List.mem_reverse.mpr hct)
    rw [hcw] at this
    exact Bool.false_ne_true this
  rw [if_neg (by rw [hne]; exact Bool.false_ne_true)]
  rw [List.reverse_append, List.reverse_reverse]

theorem afterFirstComma_data (mid u : List Char) (hmid : ∀ c ∈ mid, c ≠ ',') :
    afterFirstComma ("data:".toList ++ mid ++ [','] ++ u) = u := by
  have hassoc : "data:".toList ++ mid ++ [','] ++ u =
      ("data:".toList ++ mid) ++ (',' :: u) := by simp
  unfold afterFirstComma
  rw [hassoc]
  have hmem : ',' ∈ ("data:".toList ++ mid) ++ (',' :: u) := by simp
  rw [if_pos (List.elem_iff.mpr hmem)]
  rw [List.dropWhile_append]
  have hempty : ((("data:".toList ++ mid)).dropWhile (fun c => !(c = ','))).isEmpty
      = true := by
    rw [List.isEmpty_iff]
    rw [List.dropWhile_eq_nil_iff]
    have hdata : ∀ x ∈ "data:".toList, (!(x = ',')) = true := by decide
    intro x hx
    rcases List.mem_append.mp hx with hx | hx
    · exact hdata x hx
    · simp [hmid x hx]
  rw [if_pos hempty, List.dropWhile_cons]
  rw [if_neg (by decide : ¬(!(',' = ',')) = true)]
  rfl

/-- C9 amended: for every non-empty byte string, decoding recovers the
bytes from the standard base64 encoding — with or without the trailing `=`
padding, with whitespace inserted anywhere inside the payload, and with an
optional intact `data:<mime>,` URL prefix (any prefix text without a
comma) prepended. -/
theorem decode_base64_roundtrip (bs : List (Fin 256)) (hbs : bs ≠ [])
    (pay t input : List Char)
    (hpay : pay = b64Encode bs ∨ pay = b64EncodeRaw bs)
    (hint : WsInterleave pay t)
    (hshape : input = t ∨ ∃ mime : List Char, (∀ c ∈ mime, c ≠ ',') ∧
      input = "data:".toList ++ mime ++ [','] ++ t) :
    decodeBase64Bytes input = some (bs.map Fin.val) := by
  have hchars := payload_chars bs pay hpay
  have hpayne : pay ≠ [] := by
    rcases hpay with rfl | rfl
    · exact b64Encode_ne_nil bs hbs
    · exact b64EncodeRaw_ne_nil bs hbs
  have hrem : removeWs t = pay := hint.removeWs_eq (fun c hc => (hchars c hc).1)
  have hkey : removeWs (dropDataUrl (stripWs input)) = pay := by
    rcases hshape with heq | ⟨mime, hmime, heq⟩
    · rw [heq]
      have hcolon : ':' ∉ stripWs t := by
        intro hc
        rcases hint.mem_or ':' (mem_stripWs hc) with hcp | hcw
        · exact (hchars ':' hcp).2 rfl
        · exact absurd hcw (by decide)
      unfold dropDataUrl
      rw [if_neg (by rw [not_data_header hcolon]; exact Bool.false_ne_true)]
      rw [removeWs_stripWs, hrem]
    · rw [heq]
      have hw : ∃ c ∈ t, isWsChar c = false := by
        obtain ⟨c, hc⟩ := List.exists_mem_of_ne_nil pay hpayne
        exact ⟨c, hint.mem_of c hc, (hchars c hc).1⟩
      rw [stripWs_data_header mime t hw]
      unfold dropDataUrl
      have hpref : ("data:".toList).isPrefixOf
          ("data:".toList ++ mime ++ [','] ++ dropTrailWs t) = true := by
        apply List.isPrefixOf_iff_prefix.mpr
        have : "data:".toList ++ mime ++ [','] ++ dropTrailWs t =
            "data:".toList ++ (mime ++ [','] ++ dropTrailWs t) := by simp
        rw [this]
        exact List.prefix_append _ _
      rw [if_pos hpref, afterFirstComma_data mime (dropTrailWs t) hmime,
        removeWs_dropTrailWs, hrem]
  unfold decodeBase64Bytes
  rw [hkey, if_neg hpayne]
  rcases hpay with rfl | rfl
  · rw [padTo4_b64Encode, b64DecodeGroups_b64Encode]
  · rw [padTo4_b64EncodeRaw, b64DecodeGroups_b64Encode]

/-- C9 counterexample: the empty byte string encodes to the empty string,
which `decode_base64_bytes` rejects (`ValueError('Empty base64 payload')`)
instead of returning the empty bytes. -/
theorem decode_base64_empty_counterexample :
    b64Encode ([] : List (Fin 256)) = [] ∧
    decodeBase64Bytes [] = none ∧
    (([] : List (Fin 256)).map Fin.val) = [] :=
  ⟨rfl, rfl, rfl⟩

/-- Witness for the amended C9: the bytes `[72, 105]` (`Hi`) encode to
`SGk=`; the decoder recovers them from
`data:image/png;base64,SG k=` (prefix kept, whitespace inserted). -/
theorem decode_base64_roundtrip_witness :
    ([72, 105] : List (Fin 256)) ≠ [] ∧
    decodeBase64Bytes ("data:image/png;base64,SG k=".toList) =
      some (([72, 105] : List (Fin 256)).map Fin.val) := by
  have henc : b64Encode [(72 : Fin 256), 105] = "SGk=".toList := by decide
  have hint : WsInterleave (b64Encode [(72 : Fin 256), 105]) ("SG k=".toList) := by
    rw [henc]
    exact .keep 'S' (.keep 'G' (.ws ' ' (by decide) (.keep 'k' (.keep '=' .nil))))
  refine ⟨by decide, ?_⟩
  exact decode_base64_roundtrip [72, 105] (by decide) (b64Encode [72, 105])
    ("SG k=".toList) ("data:image/png;base64,SG k=".toList) (Or.inl rfl) hint
    (Or.inr ⟨"image/png;base64".toList, by decide, by decide⟩)

end Segmenter
